import Mathlib

/-!
Verification of the sop_gen_v4 block-based document service.

This file gives a shallow embedding of the parts of the repository that the
checked properties are about:

* `api/services/sop_service/block_service.py` (block CRUD with ordering),
* `api/services/sop_service/document_assembly.py` (templates, validation,
  multi-format assembly),
* `api/services/sop_service/conversation_builder/sop_graph.py`
  (intent classification, step parsing, supervisor routing, writer),
* `api/services/sop_service/conversation_builder/sop_tools.py`
  (title/description/step upsert tools, tool-level assemble).

Database rows are modelled as Lean lists kept in row-insertion (rowid)
order; SQLAlchemy queries `order_by(block_order)` are modelled by a stable
insertion sort on that list, `order_by(... .desc()).first()` on the order
column by the maximum, and autoincrement primary keys by an explicit
`nextId` counter.  Python `int` columns are modelled by `Int`.
-/

namespace SopGen

/-- Block types, from `models/models.py` `BlockType` (the enum's structure is
all the claims need; string values are dropped). -/
inductive BlockType where
  | title | description | section_header | paragraph
  | step | step_group | step_instruction | step_result | step_responsible
  | question | question_group
  | tags | tag | metadata | additional_info
  | ppe_required | safety_notice | warning | caution
  | risk_assessment | control_assessment | control_matrix | risks | controls
  | table_of_contents | appendix | reference
  | image | video | attachment
  | checklist | form | signature
deriving DecidableEq, Repr

/-- Document types, from `models/models.py` `DocumentType`. -/
inductive DocumentType where
  | sop | procedure | workflow | checklist | manual | policy | guideline
  | template | other
deriving DecidableEq, Repr

/-- Block content: the JSON `content` dict, modelled as a record of the keys
the code reads and writes (absent key = `none`). -/
structure Content where
  text : Option String := none
  stepNumber : Option Int := none
  stepDescription : Option String := none
  stepInstructions : Option String := none
  stepExpectedResult : Option String := none
  stepWhoResponsible : Option String := none
  ppeRequired : Option Bool := none
  question : Option String := none
  answer : Option String := none
  qstatus : Option String := none
deriving DecidableEq, Repr

/-- A `document_blocks` row: id (primary key), `block_type`, `block_order`,
`content`, `is_active`.  Audit columns are irrelevant to every claim and are
omitted. -/
structure Block where
  id : Nat
  btype : BlockType
  order : Int
  content : Content := {}
  active : Bool := true
deriving DecidableEq, Repr

/-- A document as the assembler sees it (`models/models.py` `Document`):
its type, name and block list (the audit fields rendered into headers are
immaterial to every claim and are omitted). -/
structure Document where
  document_type : DocumentType
  blocks : List Block
  document_name : String := ""
deriving DecidableEq, Repr

/-! ### Document assembler: templates and validation
(`document_assembly.py`, `_load_templates` / `validate_document_structure`) -/

/-- Required block types per document type, from `_load_templates`;
`templates.get(value, {}).get("required_blocks", [])` yields `[]` for the
types without a template. -/
def requiredBlocks : DocumentType → List BlockType
  | .sop => [.title, .description]
  | .procedure => [.title, .description, .step]
  | .checklist => [.title, .checklist]
  | _ => []

/-- Optional block types per document type, from `_load_templates`. -/
def optionalBlocks : DocumentType → List BlockType
  | .sop => [.step, .ppe_required, .warning, .caution]
  | .procedure => [.ppe_required, .warning, .caution]
  | .checklist => [.description, .ppe_required]
  | _ => []

/-- Result of `validate_document_structure`.  The `block_types` entry of the
Python dict (a `list(set(...))` with unspecified order) carries no
information beyond the block list and no claim mentions it, so it is not
modelled. -/
structure ValidationResult where
  is_valid : Bool
  missing_required : List BlockType
  has_optional_blocks : Bool
  block_count : Nat
deriving DecidableEq, Repr

/-- Model of `DocumentAssembler.validate_document_structure`: `missing_required` is
the required types not occurring among the document's blocks' types, and
`is_valid` iff that list is empty. -/
def validate_document_structure (doc : Document) : ValidationResult :=
  let required : List BlockType := requiredBlocks doc.document_type
  let optional : List BlockType := optionalBlocks doc.document_type
  let blockTypes : List BlockType := doc.blocks.map (·.btype)
  let missing : List BlockType := required.filter (fun bt => decide (bt ∉ blockTypes))
  { is_valid := decide (missing.length = 0)
    missing_required := missing
    has_optional_blocks := optional.any (fun bt => decide (bt ∈ blockTypes))
    block_count := doc.blocks.length }

/-- C4.  `validate_document_structure` returns `is_valid = true` iff every
required block type for the document's type appears at least once among the
types of the document's blocks, and `missing_required` contains exactly the
required types that do not appear. -/
theorem c4_validation_completeness (doc : Document) :
    ((validate_document_structure doc).is_valid = true ↔
      ∀ bt ∈ requiredBlocks doc.document_type, bt ∈ doc.blocks.map (·.btype)) ∧
    (∀ bt : BlockType,
      bt ∈ (validate_document_structure doc).missing_required ↔
        (bt ∈ requiredBlocks doc.document_type ∧ bt ∉ doc.blocks.map (·.btype))) := by
  constructor
  · simp only [validate_document_structure, decide_eq_true_eq,
      List.length_eq_zero, List.filter_eq_nil_iff, decide_eq_true_eq]
    constructor
    · intro h bt hbt
      by_contra hmem
      exact (h bt hbt) hmem
    · intro h bt hbt hnot
      exact hnot (h bt hbt)
  · intro bt
    simp [validate_document_structure, List.mem_filter]

/-- Witness for C4 at a concrete sop document missing its description. -/
theorem c4_validation_completeness_witness :
    ¬ ((validate_document_structure
        { document_type := .sop,
          blocks := [{ id := 1, btype := .title, order := 1 }] }).is_valid = true) ∧
    BlockType.description ∈ (validate_document_structure
        { document_type := .sop,
          blocks := [{ id := 1, btype := .title, order := 1 }] }).missing_required := by
  refine ⟨fun h => ?_, ?_⟩
  · have := (c4_validation_completeness
      { document_type := .sop,
        blocks := [{ id := 1, btype := .title, order := 1 }] }).1.mp h
    have hd := this BlockType.description (by decide)
    simp at hd
  · exact ((c4_validation_completeness
      { document_type := .sop,
        blocks := [{ id := 1, btype := .title, order := 1 }] }).2
        BlockType.description).mpr (by decide)

/-- C10.  For document types without a template (anything other than sop,
procedure, checklist), validation always succeeds with no missing required
types and no optional blocks reported, whatever the blocks are. -/
theorem c10_no_template_always_valid (doc : Document)
    (h1 : doc.document_type ≠ .sop) (h2 : doc.document_type ≠ .procedure)
    (h3 : doc.document_type ≠ .checklist) :
    validate_document_structure doc =
      { is_valid := true, missing_required := [], has_optional_blocks := false,
        block_count := doc.blocks.length } := by
  have hreq : requiredBlocks doc.document_type = [] := by
    cases h : doc.document_type <;> simp_all [requiredBlocks]
  have hopt : optionalBlocks doc.document_type = [] := by
    cases h : doc.document_type <;> simp_all [optionalBlocks]
  simp [validate_document_structure, hreq, hopt]

/-- Witness for C10 at a concrete workflow document that has blocks. -/
theorem c10_no_template_always_valid_witness :
    validate_document_structure
      { document_type := .workflow,
        blocks := [{ id := 1, btype := .step, order := 1 }] } =
      { is_valid := true, missing_required := [], has_optional_blocks := false,
        block_count := 1 } :=
  c10_no_template_always_valid
    { document_type := .workflow,
      blocks := [{ id := 1, btype := .step, order := 1 }] }
    (by decide) (by decide) (by decide)

/-! ### Conversation layer: intent classification and supervisor routing
(`conversation_builder/sop_graph.py`) -/

/-- Helper: `pat` is a prefix of the second character list.  All string
manipulation in this development is done on `List Char` (via
`String.toList` and `String.mk`) so that concrete instances evaluate in the
kernel. -/
def prefixChars : List Char → List Char → Bool
  | [], _ => true
  | _ :: _, [] => false
  | a :: as, b :: bs => a == b && prefixChars as bs

/-- Helper: `pat` occurs as a contiguous sublist (Python `pat in s`). -/
def charsContain (pat : List Char) : List Char → Bool
  | [] => pat.isEmpty
  | c :: rest => prefixChars pat (c :: rest) || charsContain pat rest

/-- Python `text.lower()` (character-wise, as Lean `String.toLower` does). -/
def lowerChars (s : String) : List Char := s.toList.map Char.toLower

/-- Python `str.split(sep)` for a one-character separator, on char lists:
`"a..b" -> ["a", "", "b"]`, `"" -> [""]`. -/
def splitPred (p : Char → Bool) : List Char → List (List Char)
  | [] => [[]]
  | c :: rest =>
    let r := splitPred p rest
    if p c then [] :: r
    else
      match r with
      | [] => [[c]]
      | g :: gs => (c :: g) :: gs

/-- Python `str.strip()`: drop leading and trailing whitespace. -/
def trimChars (l : List Char) : List Char :=
  ((l.dropWhile Char.isWhitespace).reverse.dropWhile Char.isWhitespace).reverse

/-- Model of `sop_graph._classify_intent`: case-insensitive keyword sets tested in
priority order title, description, steps, else ambiguous. -/
def classify_intent (text : String) : String :=
  let t : List Char := lowerChars text
  if ["call", "name", "title"].any (fun k => charsContain k.toList t) then "title"
  else if ["describe", "description", "about"].any (fun k => charsContain k.toList t) then
    "description"
  else if ["first", "then", "finally", "step"].any (fun k => charsContain k.toList t) then
    "steps"
  else "ambiguous"

/-- Model of `sop_graph._parse_steps`: replace `;` by `.`, split on `.`, strip each
segment, keep the non-empty ones. -/
def parse_steps (text : String) : List String :=
  let repl : List Char := text.toList.map (fun c => if c = ';' then '.' else c)
  (((splitPred (fun c => c == '.') repl).map trimChars).filter
      (fun p => !p.isEmpty)).map String.mk

/-- Model of `sop_graph._extract_title`: strip, drop trailing periods; the result if
it has at least two whitespace-separated words, else nothing. -/
def extract_title (text : String) : Option String :=
  let t : List Char := ((trimChars text.toList).reverse.dropWhile (· == '.')).reverse
  if 2 ≤ ((splitPred Char.isWhitespace t).filter (fun w => !w.isEmpty)).length then
    some (String.mk t)
  else none

/-- Message roles (LangChain `HumanMessage` vs `AIMessage`). -/
inductive Role where
  | user | assistant
deriving DecidableEq, Repr

/-- A conversation message. -/
structure Message where
  role : Role
  text : String
deriving DecidableEq, Repr

/-- The part of `GraphState` the supervisor reads: `document_id` and the
message log. -/
structure ChatState where
  document_id : Option Nat
  messages : List Message
deriving DecidableEq, Repr

/-- Python truthiness of `state.get("document_id")`: a document is bound iff
the field is present and nonzero (the API uses 0 as the absent sentinel). -/
def docBound (st : ChatState) : Bool :=
  match st.document_id with
  | none => false
  | some d => decide (d ≠ 0)

/-- Nodes the supervisor can dispatch to. -/
inductive NextNode where
  | interviewer | writer | researcher | qc
deriving DecidableEq, Repr

/-- Model of `sop_graph.supervisor`: no bound document goes to interviewer; else a
user-authored most recent message is classified (title/description/steps go
to writer, anything else to interviewer); else (no message, or a
role-authored one) goes to qc. -/
def supervisor (st : ChatState) : NextNode :=
  if docBound st then
    match st.messages.getLast? with
    | some m =>
      if m.role = .user then
        if classify_intent m.text ∈ (["title", "description", "steps"] : List String) then
          NextNode.writer
        else NextNode.interviewer
      else NextNode.qc
    | none => NextNode.qc
  else NextNode.interviewer

/-- C5.  Supervisor routing is the deterministic function of the state the
spec describes: unbound document routes to interviewer; a bound document
with a most recent user message routes to writer exactly when the message's
intent is title, description or steps and to interviewer otherwise; a bound
document whose most recent message is not a user message (or with no
messages) routes to qc; and identical states always select the same node. -/
theorem c5_supervisor_routing (st : ChatState) :
    (docBound st = false → supervisor st = NextNode.interviewer) ∧
    (∀ m : Message, docBound st = true → st.messages.getLast? = some m →
      m.role = .user →
      classify_intent m.text ∈ (["title", "description", "steps"] : List String) →
      supervisor st = NextNode.writer) ∧
    (∀ m : Message, docBound st = true → st.messages.getLast? = some m →
      m.role = .user →
      classify_intent m.text ∉ (["title", "description", "steps"] : List String) →
      supervisor st = NextNode.interviewer) ∧
    (docBound st = true → (∀ m : Message, st.messages.getLast? = some m → m.role ≠ .user) →
      supervisor st = NextNode.qc) ∧
    (∀ st2 : ChatState, st = st2 → supervisor st = supervisor st2) := by
  refine ⟨?_, ?_, ?_, ?_, fun st2 h => by rw [h]⟩
  · intro h; simp [supervisor, h]
  · intro m hb hl hu hc
    simp [supervisor, hb, hl, hu, hc]
  · intro m hb hl hu hc
    simp [supervisor, hb, hl, hu, hc]
  · intro hb h
    cases hm : st.messages.getLast? with
    | none => simp [supervisor, hb, hm]
    | some m =>
      have hne := h m hm
      simp [supervisor, hb, hm, hne]

/-- Witness for C5: a bound state whose last message is the user's step
list routes to the writer. -/
theorem c5_supervisor_routing_witness :
    docBound { document_id := some 1,
               messages := [{ role := Role.user, text := "First do the thing." }] } = true ∧
    supervisor { document_id := some 1,
                 messages := [{ role := Role.user, text := "First do the thing." }] } =
      NextNode.writer :=
  ⟨by decide,
   (c5_supervisor_routing _).2.1
     { role := Role.user, text := "First do the thing." }
     (by decide) rfl rfl (by decide)⟩

/-! ### Block service (`block_service.py`)

A document's rows are a `List Block` in rowid (insertion) order, with an
explicit autoincrement counter for fresh block ids.  No query in
`block_service.py` filters the ordering helpers by `is_active`, so all of
them act on every row of the document. -/

/-- Row comparison by `block_order`, used by `order_by(block_order)`. -/
def orderLe (a b : Block) : Prop := a.order ≤ b.order

instance : DecidableRel orderLe := fun a b => inferInstanceAs (Decidable (a.order ≤ b.order))

instance : IsTotal Block orderLe := ⟨fun a b => le_total a.order b.order⟩

instance : IsTrans Block orderLe := ⟨fun _ _ _ hab hbc => le_trans hab hbc⟩

/-- Model of `order_by(block_order)` over a document's rows: a stable sort of the
row list (ties keep rowid order, matching the database scan). -/
def sortByOrder (blocks : List Block) : List Block := List.insertionSort orderLe blocks

/-- The `order_by(block_order.desc()).first()` query: the maximum
`block_order` of the document, or `⊥` when it has no rows. -/
def maxOrder (blocks : List Block) : WithBot Int := (blocks.map (·.order)).maximum

/-- A document's block rows plus the autoincrement id counter. -/
structure DocState where
  blocks : List Block
  nextId : Nat
deriving DecidableEq, Repr

/-- Model of `BlockService._reorder_blocks_for_insert`: every row of the document
(active or not — the query does not filter on `is_active`) with
`block_order >= position` is shifted up by one. -/
def reorder_blocks_for_insert (blocks : List Block) (position : Int) : List Block :=
  blocks.map fun b => if position ≤ b.order then { b with order := b.order + 1 } else b

/-- Model of `BlockService.add_block` on an existing document: with no position the
new row goes at `max existing order + 1` (or 1 for an empty document); with
a position, rows at `order >= position` are shifted first and the new row
takes `position`.  New rows are active. -/
def add_block (s : DocState) (btype : BlockType) (content : Content)
    (position : Option Int) : DocState :=
  match position with
  | none =>
    let ord : Int :=
      match maxOrder s.blocks with
      | none => 1
      | some m => m + 1
    { blocks := s.blocks ++ [{ id := s.nextId, btype := btype, order := ord, content := content }],
      nextId := s.nextId + 1 }
  | some p =>
    { blocks := reorder_blocks_for_insert s.blocks p ++
        [{ id := s.nextId, btype := btype, order := p, content := content }],
      nextId := s.nextId + 1 }

/-- Delete the first row with the given id (the row the primary-key query
returns). -/
def removeFirstById : List Block → Nat → List Block
  | [], _ => []
  | b :: bs, i => if b.id = i then bs else b :: removeFirstById bs i

/-- Assign `block_order := counter, counter+1, ...` along a list, the loop
body of `for i, block in enumerate(blocks, 1)`. -/
def assignOrders : Nat → List Block → List Block
  | _, [] => []
  | i, b :: bs => { b with order := (i : Int) } :: assignOrders (i + 1) bs

/-- Model of `BlockService._reorder_blocks_after_delete`: the document's rows,
scanned in `order_by(block_order)` order, are renumbered 1, 2, ....  The
model keeps the rows in that scan order; this is observationally equivalent
to the in-place update because every later query either sorts by the now
distinct orders or looks rows up by id. -/
def reorder_blocks_after_delete (blocks : List Block) : List Block :=
  assignOrders 1 (sortByOrder blocks)

/-- Orders `1, 2, ..., n` as integers. -/
def intRange (n : Nat) : List Int := (List.range' 1 n).map (fun k : Nat => (k : Int))

/-- The `block_order` values of the document's active rows, in row order. -/
def activeOrders (blocks : List Block) : List Int :=
  (blocks.filter (·.active)).map (·.order)

/-- The density invariant of the spec: the active rows' orders are exactly
`1..N` (as a multiset) for `N` the number of active rows. -/
def Dense (blocks : List Block) : Prop :=
  (activeOrders blocks).Perm (intRange (activeOrders blocks).length)

instance (blocks : List Block) : Decidable (Dense blocks) :=
  inferInstanceAs (Decidable (List.Perm _ _))

/-- Every row of the document is active. -/
def AllActive (blocks : List Block) : Prop := ∀ b ∈ blocks, b.active = true

instance (blocks : List Block) : Decidable (AllActive blocks) :=
  inferInstanceAs (Decidable (∀ b ∈ blocks, b.active = true))

/-- C2 (amended).  Inserting at position `p` into a document whose active
rows' orders are dense appends one new active row with order `p`, shifts
every row that had `order >= p` — active or not — up by one, and leaves
rows with `order < p` untouched.  (The original claim's final clause, that
only active blocks are shifted, is refuted by
`c2_insert_at_position_counterexample`: the shift query does not filter on
`is_active`.) -/
theorem c2_insert_at_position (s : DocState) (bt : BlockType) (ct : Content) (p : Int)
    (hD : Dense s.blocks) :
    (add_block s bt ct (some p)).blocks.length = s.blocks.length + 1 ∧
    (∃ bnew : Block, (add_block s bt ct (some p)).blocks.getLast? = some bnew ∧
      bnew.order = p ∧ bnew.btype = bt ∧ bnew.content = ct ∧ bnew.active = true) ∧
    (∀ i : ℕ, ∀ h : i < s.blocks.length,
      (add_block s bt ct (some p)).blocks[i]? =
        some (if p ≤ (s.blocks.get ⟨i, h⟩).order then
                { s.blocks.get ⟨i, h⟩ with order := (s.blocks.get ⟨i, h⟩).order + 1 }
              else s.blocks.get ⟨i, h⟩)) := by
  refine ⟨?_, ?_, ?_⟩
  · simp [add_block, reorder_blocks_for_insert]
  · refine ⟨{ id := s.nextId, btype := bt, order := p, content := ct }, ?_, rfl, rfl, rfl, rfl⟩
    simp [add_block, List.getLast?_append]
  · intro i h
    have hlen : i < (reorder_blocks_for_insert s.blocks p).length := by
      simpa [reorder_blocks_for_insert] using h
    simp only [add_block]
    rw [List.getElem?_append_left hlen]
    simp [reorder_blocks_for_insert, List.getElem?_map, List.getElem?_eq_getElem h]

/-- Witness for C2 at a concrete two-block document, inserting at 1. -/
theorem c2_insert_at_position_witness :
    Dense [{ id := 1, btype := BlockType.title, order := 1 },
           { id := 2, btype := BlockType.step, order := 2 }] ∧
    (add_block { blocks := [{ id := 1, btype := BlockType.title, order := 1 },
                            { id := 2, btype := BlockType.step, order := 2 }], nextId := 3 }
        BlockType.description {} (some 1)).blocks.length = 3 :=
  ⟨by decide,
   (c2_insert_at_position
      { blocks := [{ id := 1, btype := BlockType.title, order := 1 },
                   { id := 2, btype := BlockType.step, order := 2 }], nextId := 3 }
      BlockType.description {} 1 (by decide)).1⟩

/-- Counterexample for C2 as stated: in a document whose active rows are
densely ordered (one active row at order 1) and which also has an inactive
row at order 2, inserting at position 2 shifts the inactive row to order 3,
although the claim says only active blocks are shifted. -/
theorem c2_insert_at_position_counterexample :
    Dense [{ id := 1, btype := BlockType.title, order := 1 },
           { id := 2, btype := BlockType.step, order := 2, active := false }] ∧
    ((add_block
        { blocks := [{ id := 1, btype := BlockType.title, order := 1 },
                     { id := 2, btype := BlockType.step, order := 2, active := false }],
          nextId := 3 }
        BlockType.description {} (some 2)).blocks[1]?.map (·.order)) = some 3 ∧
    ¬ ((add_block
        { blocks := [{ id := 1, btype := BlockType.title, order := 1 },
                     { id := 2, btype := BlockType.step, order := 2, active := false }],
          nextId := 3 }
        BlockType.description {} (some 2)).blocks[1]?.map (·.order)) = some 2 := by
  refine ⟨by decide, by decide, by decide⟩

/-! ### Density invariant helper lemmas -/

theorem intRange_succ (n : Nat) : intRange (n + 1) = intRange n ++ [((n : Int) + 1)] := by
  simp only [intRange, List.range'_concat, List.map_append, List.map_cons, List.map_nil]
  congr 2
  omega

theorem mem_intRange {x : Int} {n : Nat} : x ∈ intRange n ↔ 1 ≤ x ∧ x ≤ (n : Int) := by
  simp only [intRange, List.mem_map, List.mem_range'_1]
  constructor
  · rintro ⟨k, ⟨hk1, hk2⟩, rfl⟩
    omega
  · rintro ⟨h1, h2⟩
    exact ⟨x.toNat, ⟨by omega, by omega⟩, by omega⟩

theorem intRange_length (n : Nat) : (intRange n).length = n := by
  simp [intRange]

theorem intRange_nodup (n : Nat) : (intRange n).Nodup :=
  (List.nodup_range' 1 n).map (fun a b h => by exact_mod_cast h)

theorem maximum_of_perm_intRange {l : List Int} {n : Nat} (h : l.Perm (intRange n))
    (hn : 0 < n) : l.maximum = ((n : Int) : WithBot Int) := by
  rw [List.maximum_eq_coe_iff]
  refine ⟨h.mem_iff.2 (mem_intRange.2 ⟨by exact_mod_cast hn, le_refl _⟩), ?_⟩
  intro a ha
  exact (mem_intRange.1 (h.mem_iff.1 ha)).2

theorem orders_reorder_for_insert (blocks : List Block) (p : Int) :
    (reorder_blocks_for_insert blocks p).map (·.order) =
      (blocks.map (·.order)).map (fun o => if p ≤ o then o + 1 else o) := by
  simp only [reorder_blocks_for_insert, List.map_map]
  apply List.map_congr_left
  intro b _
  by_cases h : p ≤ b.order <;> simp [h]

theorem shift_intRange_perm (n : Nat) : ∀ p : Int, 1 ≤ p → p ≤ (n : Int) + 1 →
    (((intRange n).map (fun o => if p ≤ o then o + 1 else o)) ++ [p]).Perm
      (intRange (n + 1)) := by
  induction n with
  | zero =>
    intro p h1 h2
    have hp : p = 1 := by omega
    subst hp
    decide
  | succ n ih =>
    intro p h1 h2
    have hcast : ((n + 1 : Nat) : Int) = (n : Int) + 1 := by push_cast; ring
    have hsplit : ((intRange (n + 1)).map (fun o => if p ≤ o then o + 1 else o)) ++ [p] =
        ((intRange n).map (fun o => if p ≤ o then o + 1 else o) ++
          [if p ≤ (n : Int) + 1 then (n : Int) + 1 + 1 else (n : Int) + 1]) ++ [p] := by
      rw [intRange_succ n, List.map_append]
      rfl
    rw [hsplit]
    by_cases hp : p ≤ (n : Int) + 1
    · rw [if_pos hp]
      have step1 :
          (((intRange n).map (fun o => if p ≤ o then o + 1 else o) ++ [(n : Int) + 1 + 1]) ++
            [p]).Perm
            (((intRange n).map (fun o => if p ≤ o then o + 1 else o) ++ [p]) ++
              [(n : Int) + 1 + 1]) := by
        rw [List.append_assoc, List.append_assoc]
        exact List.Perm.append_left _ (List.Perm.swap _ _ _)
      refine step1.trans ?_
      refine ((ih p h1 hp).append_right [(n : Int) + 1 + 1]).trans ?_
      rw [intRange_succ (n + 1), hcast]
    · rw [if_neg hp]
      have hp2 : p = (n : Int) + 1 + 1 := by
        rw [hcast] at h2
        omega
      have hmap : (intRange n).map (fun o => if p ≤ o then o + 1 else o) = intRange n := by
        have hmem : ∀ o ∈ intRange n, (if p ≤ o then o + 1 else o) = o := by
          intro o ho
          have := (mem_intRange.1 ho).2
          rw [if_neg (by omega)]
        rw [List.map_congr_left hmem]
        simp
      rw [hmap, hp2, intRange_succ (n + 1), hcast, intRange_succ n]

theorem assignOrders_length : ∀ (i : Nat) (l : List Block),
    (assignOrders i l).length = l.length := by
  intro i l
  induction l generalizing i with
  | nil => simp [assignOrders]
  | cons b bs ih => simp [assignOrders, ih]

theorem assignOrders_orders : ∀ (l : List Block) (i : Nat),
    (assignOrders i l).map (·.order) =
      (List.range' i l.length).map (fun k : Nat => (k : Int)) := by
  intro l
  induction l with
  | nil => intro i; simp [assignOrders]
  | cons b bs ih =>
    intro i
    simp [assignOrders, List.range'_succ, ih (i + 1)]

theorem sortByOrder_length (l : List Block) : (sortByOrder l).length = l.length := by
  simp [sortByOrder, List.length_insertionSort]

theorem orders_after_delete (blocks : List Block) :
    (reorder_blocks_after_delete blocks).map (·.order) = intRange blocks.length := by
  unfold reorder_blocks_after_delete intRange
  rw [assignOrders_orders, sortByOrder_length]

theorem activeOrders_eq_of_allActive {l : List Block} (h : AllActive l) :
    activeOrders l = l.map (·.order) := by
  unfold activeOrders
  rw [List.filter_eq_self.2 (fun b hb => h b hb)]

theorem allActive_add_block {s : DocState} {bt : BlockType} {ct : Content}
    {pos : Option Int} (h : AllActive s.blocks) : AllActive (add_block s bt ct pos).blocks := by
  intro b hb
  cases pos with
  | none =>
    simp only [add_block, List.mem_append, List.mem_singleton] at hb
    rcases hb with hb | rfl
    · exact h b hb
    · rfl
  | some p =>
    simp only [add_block, reorder_blocks_for_insert, List.mem_append, List.mem_map,
      List.mem_singleton] at hb
    rcases hb with ⟨a, ha, rfl⟩ | rfl
    · by_cases hpa : p ≤ a.order <;> simp [hpa, h a ha]
    · rfl

theorem allActive_removeFirstById {l : List Block} {i : Nat} (h : AllActive l) :
    AllActive (removeFirstById l i) := by
  induction l with
  | nil => intro x hx; simp [removeFirstById] at hx
  | cons b bs ih =>
    intro x hx
    rw [removeFirstById] at hx
    split at hx
    · exact h x (List.mem_cons_of_mem b hx)
    · rcases List.mem_cons.1 hx with rfl | hx2
      · exact h x (List.mem_cons_self _ _)
      · exact ih (fun y hy => h y (List.mem_cons_of_mem b hy)) x hx2

theorem allActive_sortByOrder {l : List Block} (h : AllActive l) : AllActive (sortByOrder l) :=
  fun b hb => h b ((List.perm_insertionSort orderLe l).mem_iff.1 hb)

theorem allActive_assignOrders : ∀ (i : Nat) {l : List Block}, AllActive l →
    AllActive (assignOrders i l) := by
  intro i l
  induction l generalizing i with
  | nil => intro _ x hx; simp [assignOrders] at hx
  | cons b bs ih =>
    intro h x hx
    rcases List.mem_cons.1 hx with rfl | hx2
    · exact h b (List.mem_cons_self _ _)
    · exact ih (i + 1) (fun y hy => h y (List.mem_cons_of_mem b hy)) x hx2

/-! ### The operations of C1 and the invariant proof -/

/-- One `BlockService` operation on a document: `add_block` without a
position, `add_block` with a position, or `delete_block` of one of the
document's blocks. -/
inductive BlockOp where
  | addEnd (btype : BlockType) (content : Content)
  | addAt (btype : BlockType) (content : Content) (position : Int)
  | del (block_id : Nat)
deriving DecidableEq, Repr

/-- Model of `BlockService.delete_block` restricted to one document: not-found error
if the document has no row with the id, else remove the row and renumber. -/
def delete_block_in_doc (s : DocState) (block_id : Nat) : Except String DocState :=
  if s.blocks.any (fun b => b.id == block_id) then
    Except.ok { s with blocks := reorder_blocks_after_delete (removeFirstById s.blocks block_id) }
  else Except.error ("Block with ID " ++ toString block_id ++ " not found")

/-- Apply one operation. -/
def applyOp (s : DocState) : BlockOp → Except String DocState
  | .addEnd bt c => Except.ok (add_block s bt c none)
  | .addAt bt c p => Except.ok (add_block s bt c (some p))
  | .del i => delete_block_in_doc s i

/-- Apply a sequence of operations, stopping at the first error. -/
def applyOps (s : DocState) : List BlockOp → Except String DocState
  | [] => Except.ok s
  | op :: ops =>
    match applyOp s op with
    | .ok s2 => applyOps s2 ops
    | .error e => Except.error e

/-- An insert position is in range for the current document; positions out
of `1..N+1` break density (see the counterexample) and are excluded by the
amended claim. -/
def ValidOp (s : DocState) : BlockOp → Prop
  | .addAt _ _ p => 1 ≤ p ∧ p ≤ (s.blocks.length : Int) + 1
  | _ => True

/-- Each operation of the sequence is in range at the state it runs in. -/
inductive ValidOps : DocState → List BlockOp → Prop
  | nil (s : DocState) : ValidOps s []
  | cons {s s2 : DocState} {op : BlockOp} {ops : List BlockOp} :
      ValidOp s op → applyOp s op = Except.ok s2 → ValidOps s2 ops → ValidOps s (op :: ops)

theorem c1_step_preserves {s s2 : DocState} {op : BlockOp} (hV : ValidOp s op)
    (hok : applyOp s op = Except.ok s2) (hA : AllActive s.blocks) (hD : Dense s.blocks) :
    AllActive s2.blocks ∧ Dense s2.blocks := by
  have hAO := activeOrders_eq_of_allActive hA
  cases op with
  | addEnd bt c =>
    have hs2 : s2 = add_block s bt c none := by
      simpa [applyOp] using hok.symm
    subst hs2
    refine ⟨allActive_add_block hA, ?_⟩
    have hA2 : AllActive (add_block s bt c none).blocks := allActive_add_block hA
    have hAO2 := activeOrders_eq_of_allActive hA2
    rcases hempty : s.blocks with _ | ⟨b0, bs⟩
    · unfold Dense
      rw [hAO2]
      simp [add_block, maxOrder, hempty]
      decide
    · have hn : 0 < s.blocks.length := by rw [hempty]; simp
      have hperm : (s.blocks.map (·.order)).Perm (intRange s.blocks.length) := by
        have := hD
        unfold Dense at this
        rw [hAO] at this
        simpa [List.length_map] using this
      have hmax : maxOrder s.blocks = ((s.blocks.length : Int) : WithBot Int) := by
        unfold maxOrder
        exact maximum_of_perm_intRange hperm hn
      unfold Dense
      rw [hAO2]
      rw [← hempty] at *
      simp only [add_block, hmax, List.map_append, List.map_cons, List.map_nil,
        List.length_append, List.length_map, List.length_cons, List.length_nil]
      have hstep : ((s.blocks.map (·.order)) ++ [(s.blocks.length : Int) + 1]).Perm
          (intRange (s.blocks.length + 1)) := by
        rw [intRange_succ]
        exact hperm.append_right _
      simpa using hstep
  | addAt bt c p =>
    have hs2 : s2 = add_block s bt c (some p) := by
      simpa [applyOp] using hok.symm
    subst hs2
    refine ⟨allActive_add_block hA, ?_⟩
    obtain ⟨hp1, hp2⟩ := hV
    have hA2 : AllActive (add_block s bt c (some p)).blocks := allActive_add_block hA
    have hAO2 := activeOrders_eq_of_allActive hA2
    have hperm : (s.blocks.map (·.order)).Perm (intRange s.blocks.length) := by
      have := hD
      unfold Dense at this
      rw [hAO] at this
      simpa [List.length_map] using this
    unfold Dense
    rw [hAO2]
    simp only [add_block, List.map_append, List.map_cons, List.map_nil,
      orders_reorder_for_insert, List.length_append, List.length_map, List.length_cons,
      List.length_nil, List.length_insertionSort]
    have hshift := shift_intRange_perm s.blocks.length p hp1 hp2
    have hmapped : (((s.blocks.map (·.order)).map (fun o => if p ≤ o then o + 1 else o)) ++
        [p]).Perm
        (((intRange s.blocks.length).map (fun o => if p ≤ o then o + 1 else o)) ++ [p]) :=
      (hperm.map _).append_right _
    have := hmapped.trans hshift
    have hlen : (reorder_blocks_for_insert s.blocks p).length = s.blocks.length := by
      simp [reorder_blocks_for_insert]
    simpa [reorder_blocks_for_insert, List.length_map] using this
  | del i =>
    have hok2 : delete_block_in_doc s i = Except.ok s2 := hok
    unfold delete_block_in_doc at hok2
    split at hok2
    · cases hok2
      constructor
      · exact allActive_assignOrders 1 (allActive_sortByOrder (allActive_removeFirstById hA))
      · have hA2 : AllActive (reorder_blocks_after_delete (removeFirstById s.blocks i)) :=
          allActive_assignOrders 1 (allActive_sortByOrder (allActive_removeFirstById hA))
        unfold Dense
        rw [activeOrders_eq_of_allActive hA2, orders_after_delete]
        rw [intRange_length]
    · cases hok2

/-- C1 (amended).  Starting from a document all of whose rows are active
and whose orders are dense, any sequence of `add_block` and `delete_block`
operations — with each supplied insert position within `1..N+1` for the `N`
at that moment — keeps the (all active) rows' orders exactly `1..N` with no
gaps or duplicates.  (The original claim's "every choice of the optional
insert position" and its tolerance of inactive rows are refuted by
`c1_density_invariant_counterexample`: out-of-range positions leave gaps,
and the max/shift/renumber queries do not filter on `is_active`.) -/
theorem c1_density_invariant (ops : List BlockOp) : ∀ (s s2 : DocState),
    AllActive s.blocks → Dense s.blocks → ValidOps s ops →
    applyOps s ops = Except.ok s2 → Dense s2.blocks ∧ AllActive s2.blocks := by
  induction ops with
  | nil =>
    intro s s2 hA hD _ h
    have : s = s2 := by simpa [applyOps] using h
    subst this
    exact ⟨hD, hA⟩
  | cons op ops2 ih =>
    intro s s2 hA hD hV h
    cases hV with
    | cons hVop hok hrest =>
      rename_i sB
      have hstep := c1_step_preserves hVop hok hA hD
      have happly : applyOps sB ops2 = Except.ok s2 := by
        simp only [applyOps, hok] at h
        exact h
      exact ih sB s2 hstep.1 hstep.2 hrest happly

/-- Witness for C1: append a block, insert at 1, then delete the shifted
block; orders stay dense throughout. -/
theorem c1_density_invariant_witness :
    applyOps { blocks := [], nextId := 1 }
        [BlockOp.addEnd BlockType.title {},
         BlockOp.addAt BlockType.description {} 1,
         BlockOp.del 1] =
      Except.ok { blocks := [{ id := 2, btype := BlockType.description, order := 1 }],
                  nextId := 3 } ∧
    Dense [{ id := 2, btype := BlockType.description, order := 1 }] := by
  refine ⟨rfl, ?_⟩
  have hV : ValidOps { blocks := [], nextId := 1 }
      [BlockOp.addEnd BlockType.title {},
       BlockOp.addAt BlockType.description {} 1,
       BlockOp.del 1] :=
    ValidOps.cons trivial rfl
      (ValidOps.cons ⟨by decide, by decide⟩ rfl
        (ValidOps.cons trivial rfl (ValidOps.nil _)))
  exact (c1_density_invariant _ { blocks := [], nextId := 1 }
    { blocks := [{ id := 2, btype := BlockType.description, order := 1 }], nextId := 3 }
    (by decide) (by decide) hV rfl).1

/-- Counterexample for C1 as stated: (i) with all rows active and dense,
inserting at out-of-range position 3 leaves the gap `{1, 3}`; (ii) with an
inactive row at order 3 alongside a dense active row, appending computes
`max + 1 = 4` over all rows and the active orders become `{1, 4}`. -/
theorem c1_density_invariant_counterexample :
    (Dense [{ id := 1, btype := BlockType.title, order := 1 }] ∧
     AllActive [{ id := 1, btype := BlockType.title, order := 1 }] ∧
     ¬ Dense (add_block { blocks := [{ id := 1, btype := BlockType.title, order := 1 }],
                          nextId := 2 }
         BlockType.step {} (some 3)).blocks) ∧
    (Dense [{ id := 1, btype := BlockType.title, order := 1 },
            { id := 2, btype := BlockType.step, order := 3, active := false }] ∧
     ¬ Dense (add_block
         { blocks := [{ id := 1, btype := BlockType.title, order := 1 },
                      { id := 2, btype := BlockType.step, order := 3, active := false }],
           nextId := 3 }
         BlockType.step {} none).blocks) := by
  refine ⟨⟨by decide, by decide, by decide⟩, ⟨by decide, by decide⟩⟩

/-! ### The database level: documents and global block lookup -/

/-- A `documents` row: its id and its block rows. -/
structure DocRow where
  id : Nat
  blocks : List Block
deriving DecidableEq, Repr

/-- The database: the list of document rows. -/
structure DB where
  docs : List DocRow
deriving DecidableEq, Repr

/-- Decidable equality for `Except` results, used to evaluate concrete
runs of the fallible operations. -/
instance {ε α : Type} [DecidableEq ε] [DecidableEq α] : DecidableEq (Except ε α) := fun x y =>
  match x, y with
  | Except.ok a, Except.ok b =>
    if h : a = b then isTrue (by rw [h]) else isFalse (fun hc => h (Except.ok.inj hc))
  | Except.error a, Except.error b =>
    if h : a = b then isTrue (by rw [h]) else isFalse (fun hc => h (Except.error.inj hc))
  | Except.ok _, Except.error _ => isFalse (fun hc => Except.noConfusion hc)
  | Except.error _, Except.ok _ => isFalse (fun hc => Except.noConfusion hc)

/-- All block ids in the database, document by document. -/
def dbBlockIds (db : DB) : List Nat :=
  (db.docs.map (fun d => d.blocks.map (·.id))).flatten

/-- Model of `BlockService.delete_block`: the row is looked up by id with no
document filter; error if absent, else the row is removed from its
document and that document's rows are renumbered. -/
def delete_block (db : DB) (block_id : Nat) : Except String DB :=
  match db.docs.find? (fun d => d.blocks.any (fun b => b.id == block_id)) with
  | none => Except.error ("Block with ID " ++ toString block_id ++ " not found")
  | some d =>
    Except.ok { docs := db.docs.map (fun d2 =>
      if d2.id = d.id then
        { d2 with blocks := reorder_blocks_after_delete (removeFirstById d2.blocks block_id) }
      else d2) }

/-! ### Lemmas about id lookup and the renumbering -/

theorem block_eq_of_id_eq {l : List Block} (hnd : (l.map (·.id)).Nodup) {x y : Block}
    (hx : x ∈ l) (hy : y ∈ l) (h : x.id = y.id) : x = y := by
  by_contra hne
  have hpw : List.Pairwise (fun a b : Block => a.id ≠ b.id) l := List.pairwise_map.1 hnd
  have hsym : Symmetric (fun a b : Block => a.id ≠ b.id) :=
    fun a b hab heq => hab heq.symm
  exact hpw.forall hsym hx hy hne h

theorem doc_eq_of_id_eq {l : List DocRow} (hnd : (l.map (·.id)).Nodup) {x y : DocRow}
    (hx : x ∈ l) (hy : y ∈ l) (h : x.id = y.id) : x = y := by
  by_contra hne
  have hpw : List.Pairwise (fun a b : DocRow => a.id ≠ b.id) l := List.pairwise_map.1 hnd
  have hsym : Symmetric (fun a b : DocRow => a.id ≠ b.id) :=
    fun a b hab heq => hab heq.symm
  exact hpw.forall hsym hx hy hne h

theorem find_doc_eq {docs : List DocRow} {i : Nat}
    (hnd : ((docs.map (fun d => d.blocks.map (·.id))).flatten).Nodup)
    {d : DocRow} (hd : d ∈ docs) {b0 : Block} (hb : b0 ∈ d.blocks) (hbid : b0.id = i) :
    docs.find? (fun d2 => d2.blocks.any (fun b => b.id == i)) = some d := by
  induction docs with
  | nil => cases hd
  | cons h t ih =>
    by_cases hh : h.blocks.any (fun b => b.id == i) = true
    · rw [@List.find?_cons_of_pos DocRow (fun d2 => d2.blocks.any (fun b => b.id == i)) h t hh]
      rcases List.mem_cons.1 hd with rfl | hd2
      · rfl
      · exfalso
        obtain ⟨bh, hbh, hbh2⟩ := List.any_eq_true.1 hh
        have hbh3 : bh.id = i := by simpa using hbh2
        have hflat : (h.blocks.map (·.id) ++
            ((t.map (fun d2 => d2.blocks.map (·.id))).flatten)).Nodup := by
          simpa using hnd
        have hdisj := (List.nodup_append.1 hflat).2.2
        have hmem1 : i ∈ h.blocks.map (·.id) := hbh3 ▸ List.mem_map_of_mem (·.id) hbh
        have hmem2 : i ∈ ((t.map (fun d2 => d2.blocks.map (·.id))).flatten) :=
          List.mem_flatten.2 ⟨d.blocks.map (·.id),
            List.mem_map_of_mem _ hd2, hbid ▸ List.mem_map_of_mem (·.id) hb⟩
        exact hdisj hmem1 hmem2
    · rw [@List.find?_cons_of_neg DocRow (fun d2 => d2.blocks.any (fun b => b.id == i)) h t hh]
      rcases List.mem_cons.1 hd with rfl | hd2
      · exact absurd (List.any_eq_true.2 ⟨b0, hb, by simpa using hbid⟩) hh
      · have hnd2 : ((t.map (fun d2 => d2.blocks.map (·.id))).flatten).Nodup := by
          have hflat : (h.blocks.map (·.id) ++
              ((t.map (fun d2 => d2.blocks.map (·.id))).flatten)).Nodup := by
            simpa using hnd
          exact (List.nodup_append.1 hflat).2.1
        exact ih hnd2 hd2

theorem removeFirstById_split {l : List Block} {b0 : Block} {i : Nat}
    (hids : (l.map (·.id)).Nodup) (hb : b0 ∈ l) (hid : b0.id = i) :
    ∃ l1 l2, l = l1 ++ b0 :: l2 ∧ removeFirstById l i = l1 ++ l2 := by
  induction l with
  | nil => cases hb
  | cons c cs ih =>
    by_cases hc : c.id = i
    · have hcb : c = b0 := by
        rcases List.mem_cons.1 hb with rfl | hb2
        · rfl
        · exact block_eq_of_id_eq hids (List.mem_cons_self _ _)
            (List.mem_cons_of_mem _ hb2) (hc.trans hid.symm)
      refine ⟨[], cs, by simp [hcb], ?_⟩
      rw [removeFirstById, if_pos hc]
      rfl
    · have hb2 : b0 ∈ cs := by
        rcases List.mem_cons.1 hb with rfl | hb2
        · exact absurd hid hc
        · exact hb2
      have hids2 : (cs.map (·.id)).Nodup := by
        have := hids
        simp only [List.map_cons] at this
        exact this.of_cons
      obtain ⟨l1, l2, he, hr⟩ := ih hids2 hb2
      refine ⟨c :: l1, l2, by rw [he]; rfl, ?_⟩
      rw [removeFirstById, if_neg hc, hr]
      rfl

theorem assignOrders_getElem? : ∀ (l : List Block) (s k : Nat),
    (assignOrders s l)[k]? =
      (l[k]?).map (fun b => { b with order := ((s + k : Nat) : Int) }) := by
  intro l
  induction l with
  | nil => intro s k; simp [assignOrders]
  | cons b bs ih =>
    intro s k
    cases k with
    | zero => simp [assignOrders]
    | succ k =>
      simp only [assignOrders, List.getElem?_cons_succ, ih (s + 1) k]
      have : s + 1 + k = s + (k + 1) := by omega
      rw [this]

theorem mem_assignOrders {l : List Block} {s : Nat} {x : Block} :
    x ∈ assignOrders s l ↔ ∃ k : Nat, ∃ b : Block, l[k]? = some b ∧
      x = { b with order := ((s + k : Nat) : Int) } := by
  rw [List.mem_iff_getElem?]
  constructor
  · rintro ⟨k, hk⟩
    rw [assignOrders_getElem? l s k] at hk
    cases hb : l[k]? with
    | none => rw [hb] at hk; simp at hk
    | some b =>
      rw [hb] at hk
      simp only [Option.map_some', Option.some.injEq] at hk
      exact ⟨k, b, hb, hk.symm⟩
  · rintro ⟨k, b, hb, rfl⟩
    refine ⟨k, ?_⟩
    rw [assignOrders_getElem? l s k, hb]
    rfl

theorem sorted_strict {l : List Block} (hnd : (l.map (·.order)).Nodup) :
    List.Pairwise (fun a b : Block => a.order < b.order) (sortByOrder l) := by
  have hs : List.Sorted orderLe (sortByOrder l) := List.sorted_insertionSort orderLe l
  have hnd2 : ((sortByOrder l).map (·.order)).Nodup :=
    (((List.perm_insertionSort orderLe l).map (·.order)).nodup_iff).2 hnd
  have hpw2 : List.Pairwise (fun a b : Block => a.order ≠ b.order) (sortByOrder l) :=
    List.pairwise_map.1 hnd2
  exact (hs.and hpw2).imp (fun h => lt_of_le_of_ne h.1 h.2)

theorem assign_rel_order {l : List Block}
    (hordnd : (l.map (·.order)).Nodup) (hidnd : (l.map (·.id)).Nodup)
    {b c : Block} (hbl : b ∈ l) (hcl : c ∈ l)
    {b2 c2 : Block}
    (hb2 : b2 ∈ assignOrders 1 (sortByOrder l)) (hc2 : c2 ∈ assignOrders 1 (sortByOrder l))
    (hbid : b2.id = b.id) (hcid : c2.id = c.id) :
    (b2.order < c2.order ↔ b.order < c.order) := by
  have hperm : (sortByOrder l).Perm l := List.perm_insertionSort orderLe l
  have hids_sorted : ((sortByOrder l).map (·.id)).Nodup :=
    ((hperm.map (·.id)).nodup_iff).2 hidnd
  have hstrict := sorted_strict hordnd
  obtain ⟨kb, bb, hbbE, rfl⟩ := mem_assignOrders.1 hb2
  obtain ⟨kc, cc, hccE, rfl⟩ := mem_assignOrders.1 hc2
  obtain ⟨hkb, hbbG⟩ := List.getElem?_eq_some.1 hbbE
  obtain ⟨hkc, hccG⟩ := List.getElem?_eq_some.1 hccE
  have hbbM : bb ∈ sortByOrder l := hbbG ▸ List.getElem_mem _
  have hccM : cc ∈ sortByOrder l := hccG ▸ List.getElem_mem _
  have hbb : bb = b :=
    block_eq_of_id_eq hidnd (hperm.mem_iff.1 hbbM) hbl (by simpa using hbid)
  have hcc : cc = c :=
    block_eq_of_id_eq hidnd (hperm.mem_iff.1 hccM) hcl (by simpa using hcid)
  have horder : ∀ i j : Nat, ∀ hi : i < (sortByOrder l).length,
      ∀ hj : j < (sortByOrder l).length, i < j →
      (sortByOrder l)[i].order < (sortByOrder l)[j].order :=
    fun i j hi hj hij => List.pairwise_iff_getElem.1 hstrict i j hi hj hij
  have hk_iff : kb < kc ↔ b.order < c.order := by
    constructor
    · intro hlt
      have := horder kb kc hkb hkc hlt
      rw [hbbG, hccG] at this
      rw [hbb, hcc] at this
      exact this
    · intro hlt
      rcases Nat.lt_trichotomy kb kc with h | h | h
      · exact h
      · exfalso
        have : bb = cc := by
          subst h
          rw [← hbbG, ← hccG]
        rw [hbb, hcc] at this
        rw [this] at hlt
        exact lt_irrefl _ hlt
      · exfalso
        have := horder kc kb hkc hkb h
        rw [hbbG, hccG] at this
        rw [hbb, hcc] at this
        exact lt_asymm hlt this
  constructor
  · intro hlt
    apply hk_iff.1
    simp only at hlt
    omega
  · intro hlt
    have := hk_iff.2 hlt
    simp only
    omega

/-- C3.  `delete_block` fails with a not-found error, touching nothing,
when no block has the given id; when the block exists in a document of `N`
blocks with distinct dense orders `1..N`, it removes exactly that row and
renumbers the `N-1` survivors to dense orders `1..N-1`, stably by their
previous order (two survivors compare the same before and after). -/
theorem c3_delete_and_renumber (db : DB) (block_id : Nat) :
    ((∀ d ∈ db.docs, ∀ b ∈ d.blocks, b.id ≠ block_id) →
      ∃ msg, delete_block db block_id = Except.error msg) ∧
    (∀ d : DocRow, (db.docs.map (·.id)).Nodup → (dbBlockIds db).Nodup →
      d ∈ db.docs → ∀ b0 ∈ d.blocks, b0.id = block_id →
      (d.blocks.map (·.order)).Perm (intRange d.blocks.length) →
      ∃ d2 : DocRow,
        delete_block db block_id =
          Except.ok { docs := db.docs.map (fun x => if x.id = d.id then d2 else x) } ∧
        d2.id = d.id ∧
        d2.blocks.length = d.blocks.length - 1 ∧
        (d2.blocks.map (·.order)).Perm (intRange (d.blocks.length - 1)) ∧
        (∀ b2 ∈ d2.blocks, ∃ b ∈ d.blocks, b.id = b2.id ∧ b.id ≠ block_id ∧
          b.btype = b2.btype ∧ b.content = b2.content ∧ b.active = b2.active) ∧
        (∀ b ∈ d.blocks, b.id ≠ block_id → ∃ b2 ∈ d2.blocks, b2.id = b.id) ∧
        (∀ b c : Block, b ∈ d.blocks → c ∈ d.blocks → b.id ≠ block_id → c.id ≠ block_id →
          ∀ b2 c2 : Block, b2 ∈ d2.blocks → c2 ∈ d2.blocks → b2.id = b.id → c2.id = c.id →
            (b2.order < c2.order ↔ b.order < c.order))) := by
  constructor
  · intro h
    have hfind : db.docs.find? (fun d => d.blocks.any (fun b => b.id == block_id)) = none := by
      rw [List.find?_eq_none]
      intro x hx hany
      obtain ⟨b, hbmem, hbeq⟩ := List.any_eq_true.1 hany
      exact h x hx b hbmem (by simpa using hbeq)
    refine ⟨"Block with ID " ++ toString block_id ++ " not found", ?_⟩
    simp only [delete_block, hfind]
  · intro d hndocs hnids hd b0 hb0 hbid hdense
    have hnids2 : ((db.docs.map (fun d2 => d2.blocks.map (·.id))).flatten).Nodup := hnids
    have hids_d : (d.blocks.map (·.id)).Nodup :=
      (List.nodup_flatten.1 hnids2).1 _ (List.mem_map_of_mem _ hd)
    have hfind := find_doc_eq hnids2 hd hb0 hbid
    obtain ⟨l1, l2, hspl, hrem⟩ := removeFirstById_split hids_d hb0 hbid
    set rem : List Block := removeFirstById d.blocks block_id with hremdef
    have hlenrem : rem.length = d.blocks.length - 1 := by
      rw [hrem, hspl]
      simp [List.length_append]
    have hsub : rem.Sublist d.blocks := by
      rw [hrem, hspl]
      exact (List.sublist_cons_self b0 l2).append_left l1
    have hordnd_d : (d.blocks.map (·.order)).Nodup :=
      hdense.symm.nodup (intRange_nodup d.blocks.length)
    have hordnd_rem : (rem.map (·.order)).Nodup := (hsub.map (·.order)).nodup hordnd_d
    have hidnd_rem : (rem.map (·.id)).Nodup := (hsub.map (·.id)).nodup hids_d
    have hmem_rem : ∀ b ∈ d.blocks, b.id ≠ block_id → b ∈ rem := by
      intro b hbm hbne
      rw [hrem]
      rw [hspl] at hbm
      rcases List.mem_append.1 hbm with h1 | h2
      · exact List.mem_append.2 (Or.inl h1)
      · rcases List.mem_cons.1 h2 with rfl | h3
        · exact absurd hbid hbne
        · exact List.mem_append.2 (Or.inr h3)
    refine ⟨{ id := d.id, blocks := reorder_blocks_after_delete rem }, ?_, rfl, ?_, ?_, ?_,
      ?_, ?_⟩
    · simp only [delete_block, hfind]
      congr 1
      congr 1
      apply List.map_congr_left
      intro x hx
      by_cases hxid : x.id = d.id
      · rw [if_pos hxid, if_pos hxid]
        have hxd : x = d := doc_eq_of_id_eq hndocs hx hd hxid
        rw [hxd]
      · rw [if_neg hxid, if_neg hxid]
    · simp only [reorder_blocks_after_delete]
      rw [assignOrders_length, sortByOrder_length, hlenrem]
    · have horders := orders_after_delete rem
      simp only [reorder_blocks_after_delete] at horders ⊢
      rw [horders, hlenrem]
    · intro b2 hb2
      obtain ⟨k, bb, hbbE, rfl⟩ := mem_assignOrders.1 hb2
      obtain ⟨hk, hbbG⟩ := List.getElem?_eq_some.1 hbbE
      have hbbM : bb ∈ sortByOrder rem := hbbG ▸ List.getElem_mem _
      have hbbRem : bb ∈ rem := (List.perm_insertionSort orderLe rem).mem_iff.1 hbbM
      have hbbD : bb ∈ d.blocks := hsub.subset hbbRem
      refine ⟨bb, hbbD, rfl, ?_, rfl, rfl, rfl⟩
      intro hbbid
      have hbb0 : bb = b0 := block_eq_of_id_eq hids_d hbbD hb0 (by rw [hbbid, hbid])
      have hnd_el : d.blocks.Nodup := List.Nodup.of_map _ hids_d
      rw [hspl] at hnd_el
      obtain ⟨-, hnd2, hdisj⟩ := List.nodup_append.1 hnd_el
      rw [hbb0, hrem] at hbbRem
      rcases List.mem_append.1 hbbRem with h1 | h2
      · exact hdisj h1 (List.mem_cons_self _ _)
      · exact (List.nodup_cons.1 hnd2).1 h2
    · intro b hbm hbne
      have hbs : b ∈ sortByOrder rem :=
        (List.perm_insertionSort orderLe rem).mem_iff.2 (hmem_rem b hbm hbne)
      obtain ⟨k, hk⟩ := List.mem_iff_getElem?.1 hbs
      exact ⟨{ b with order := ((1 + k : Nat) : Int) },
        mem_assignOrders.2 ⟨k, b, hk, rfl⟩, rfl⟩
    · intro b c hbm hcm hbne hcne b2 c2 hb2 hc2 hbi hci
      exact assign_rel_order hordnd_rem hidnd_rem (hmem_rem b hbm hbne)
        (hmem_rem c hcm hcne) hb2 hc2 hbi hci

/-- Witness for C3 at a one-document database of three dense blocks,
deleting the middle one. -/
theorem c3_delete_and_renumber_witness :
    (((DB.mk [⟨1, [{ id := 1, btype := BlockType.title, order := 1 },
                   { id := 2, btype := BlockType.step, order := 2 },
                   { id := 3, btype := BlockType.step, order := 3 }]⟩]).docs.map
        (·.id)).Nodup ∧
      (dbBlockIds (DB.mk [⟨1, [{ id := 1, btype := BlockType.title, order := 1 },
                   { id := 2, btype := BlockType.step, order := 2 },
                   { id := 3, btype := BlockType.step, order := 3 }]⟩])).Nodup) ∧
    Except.isOk (delete_block
      (DB.mk [⟨1, [{ id := 1, btype := BlockType.title, order := 1 },
                   { id := 2, btype := BlockType.step, order := 2 },
                   { id := 3, btype := BlockType.step, order := 3 }]⟩]) 2) = true := by
  refine ⟨⟨by decide, by decide⟩, ?_⟩
  obtain ⟨d2, heq, -⟩ := (c3_delete_and_renumber
    (DB.mk [⟨1, [{ id := 1, btype := BlockType.title, order := 1 },
                 { id := 2, btype := BlockType.step, order := 2 },
                 { id := 3, btype := BlockType.step, order := 3 }]⟩]) 2).2
    ⟨1, [{ id := 1, btype := BlockType.title, order := 1 },
         { id := 2, btype := BlockType.step, order := 2 },
         { id := 3, btype := BlockType.step, order := 3 }]⟩
    (by decide) (by decide) (by decide)
    { id := 2, btype := BlockType.step, order := 2 }
    (by decide) (by decide) (by decide)
  rw [heq]
  rfl

/-! ### `reorder_blocks` (`block_service.py`) -/

/-- One `{block_id, order}` entry of `reorder_blocks`. -/
structure OrderEntry where
  block_id : Nat
  order : Int
deriving DecidableEq, Repr

/-- Python truthiness of `if block_id and new_order`: the entry is applied
only when both values are nonzero. -/
def entryApplies (e : OrderEntry) : Bool :=
  decide (e.block_id ≠ 0) && decide (e.order ≠ 0)

/-- Set the `block_order` of the first row with the given id (the row the
primary-key query returns). -/
def setOrderFirst : List Block → Nat → Int → List Block
  | [], _, _ => []
  | b :: bs, i, o =>
    if b.id = i then { b with order := o } :: bs else b :: setOrderFirst bs i o

/-- Apply one entry across documents: the block query has no document
filter, so the first matching row anywhere in the database is updated. -/
def setOrderFirstDocs : List DocRow → Nat → Int → List DocRow
  | [], _, _ => []
  | d :: ds, i, o =>
    if d.blocks.any (fun b => b.id == i) then
      { d with blocks := setOrderFirst d.blocks i o } :: ds
    else d :: setOrderFirstDocs ds i o

/-- Model of `BlockService.reorder_blocks`: not-found error when the document is
missing; else each entry whose `block_id` and `order` are truthy sets the
named block's `block_order` verbatim, in list order.  No renumbering
happens on this path. -/
def reorder_blocks (db : DB) (document_id : Nat) (entries : List OrderEntry) :
    Except String DB :=
  if db.docs.any (fun d => d.id == document_id) then
    Except.ok { docs := entries.foldl (fun docs e =>
      if entryApplies e then setOrderFirstDocs docs e.block_id e.order else docs) db.docs }
  else Except.error ("Document with ID " ++ toString document_id ++ " not found")

/-- The order value of the last applied entry naming a block id, if any:
the value that ends up on that block. -/
def lastOrderFor (entries : List OrderEntry) (i : Nat) : Option Int :=
  ((entries.filter (fun e => entryApplies e && e.block_id == i)).getLast?).map (·.order)

theorem map_setOrder_id {bs : List Block} {i : Nat} (h : ∀ b ∈ bs, b.id ≠ i) (o : Int) :
    bs.map (fun b => if b.id = i then { b with order := o } else b) = bs := by
  rw [List.map_congr_left (fun b hb => if_neg (h b hb))]
  simp

theorem setOrderFirst_eq_map {bs : List Block} {i : Nat} (hnd : (bs.map (·.id)).Nodup)
    (o : Int) :
    setOrderFirst bs i o = bs.map (fun b => if b.id = i then { b with order := o } else b) := by
  induction bs with
  | nil => rfl
  | cons b t ih =>
    have hnd2 : (b.id :: t.map (·.id)).Nodup := by simpa using hnd
    have hnd_t : (t.map (·.id)).Nodup := (List.nodup_cons.1 hnd2).2
    by_cases hb : b.id = i
    · rw [setOrderFirst, if_pos hb, List.map_cons, if_pos hb]
      congr 1
      symm
      apply map_setOrder_id
      intro x hx hxi
      exact (List.nodup_cons.1 hnd2).1 (by
        rw [hb, ← hxi]
        exact List.mem_map_of_mem (·.id) hx)
    · rw [setOrderFirst, if_neg hb, List.map_cons, if_neg hb, ih hnd_t]

theorem setOrderFirstDocs_eq_map {docs : List DocRow} {i : Nat}
    (hnd : ((docs.map (fun d => d.blocks.map (·.id))).flatten).Nodup) (o : Int) :
    setOrderFirstDocs docs i o = docs.map (fun d =>
      { d with blocks := d.blocks.map (fun b =>
          if b.id = i then { b with order := o } else b) }) := by
  induction docs with
  | nil => rfl
  | cons d ds ih =>
    have hflat : (d.blocks.map (·.id) ++
        ((ds.map (fun d2 => d2.blocks.map (·.id))).flatten)).Nodup := by simpa using hnd
    obtain ⟨hhead, htail, hdisj⟩ := List.nodup_append.1 hflat
    by_cases hc : d.blocks.any (fun b => b.id == i) = true
    · rw [setOrderFirstDocs, if_pos hc, List.map_cons]
      congr 1
      · rw [setOrderFirst_eq_map hhead]
      · obtain ⟨bh, hbh, hbh2⟩ := List.any_eq_true.1 hc
        have hbh3 : bh.id = i := by simpa using hbh2
        have hgone : ∀ d2 ∈ ds, d2.blocks.map
            (fun b => if b.id = i then { b with order := o } else b) = d2.blocks := by
          intro d2 hd2
          apply map_setOrder_id
          intro b hb hbi
          have hmem1 : i ∈ d.blocks.map (·.id) := hbh3 ▸ List.mem_map_of_mem (·.id) hbh
          have hmem2 : i ∈ ((ds.map (fun d2b => d2b.blocks.map (·.id))).flatten) :=
            List.mem_flatten.2 ⟨d2.blocks.map (·.id),
              List.mem_map_of_mem _ hd2, hbi ▸ List.mem_map_of_mem (·.id) hb⟩
          exact hdisj hmem1 hmem2
        have hfix : ∀ d2 ∈ ds, ({ d2 with blocks := (d2.blocks.map
            (fun b => if b.id = i then { b with order := o } else b)) } : DocRow) = d2 := by
          intro d2 hd2
          rw [hgone d2 hd2]
        rw [List.map_congr_left hfix]
        simp
    · rw [setOrderFirstDocs, if_neg hc, List.map_cons, ih htail]
      congr 1
      have hnone : ∀ b ∈ d.blocks, b.id ≠ i := by
        intro b hb hbi
        exact hc (List.any_eq_true.2 ⟨b, hb, by simpa using hbi⟩)
      rw [map_setOrder_id hnone]

theorem lastOrderFor_append (es : List OrderEntry) (e : OrderEntry) (i : Nat) :
    lastOrderFor (es ++ [e]) i =
      if entryApplies e && e.block_id == i then some e.order else lastOrderFor es i := by
  unfold lastOrderFor
  rw [List.filter_append]
  by_cases hc : (entryApplies e && e.block_id == i) = true
  · rw [if_pos hc]
    simp [List.filter_cons, hc, List.getLast?_append]
  · rw [if_neg hc]
    simp [List.filter_cons, hc]

theorem reorder_fold_eq {docs : List DocRow}
    (hnd : ((docs.map (fun d => d.blocks.map (·.id))).flatten).Nodup)
    (entries : List OrderEntry) :
    entries.foldl (fun ds e =>
        if entryApplies e then setOrderFirstDocs ds e.block_id e.order else ds) docs =
      docs.map (fun d => { d with blocks := d.blocks.map (fun b =>
        { b with order := (lastOrderFor entries b.id).getD b.order }) }) := by
  induction entries using List.reverseRecOn with
  | nil =>
    have hb : ∀ bs : List Block, bs.map (fun b =>
        { b with order := (lastOrderFor [] b.id).getD b.order }) = bs := by
      intro bs
      have hpt : ∀ b ∈ bs, ({ b with order := (lastOrderFor [] b.id).getD b.order } : Block) =
          b := fun b _ => rfl
      rw [List.map_congr_left hpt]
      simp
    have hd : ∀ d ∈ docs, ({ d with blocks := d.blocks.map (fun b =>
        { b with order := (lastOrderFor [] b.id).getD b.order }) } : DocRow) = d := by
      intro d _
      rw [hb d.blocks]
    rw [List.foldl_nil, List.map_congr_left hd]
    simp
  | append_singleton es e ih =>
    rw [List.foldl_append, ih, List.foldl_cons, List.foldl_nil]
    have hids_pres : (((docs.map (fun d : DocRow => { d with blocks := d.blocks.map (fun b =>
        { b with order := (lastOrderFor es b.id).getD b.order }) })).map
          (fun d : DocRow => d.blocks.map (·.id))).flatten).Nodup := by
      have heq : (docs.map (fun d : DocRow => { d with blocks := d.blocks.map (fun b =>
          { b with order := (lastOrderFor es b.id).getD b.order }) })).map
            (fun d : DocRow => d.blocks.map (·.id)) =
          docs.map (fun d : DocRow => d.blocks.map (·.id)) := by
        rw [List.map_map]
        apply List.map_congr_left
        intro d _
        simp [Function.comp, List.map_map]
      rw [heq]
      exact hnd
    by_cases he : entryApplies e = true
    · rw [if_pos he, setOrderFirstDocs_eq_map hids_pres, List.map_map]
      apply List.map_congr_left
      intro d _
      simp only [Function.comp]
      congr 1
      rw [List.map_map]
      apply List.map_congr_left
      intro b _
      simp only [Function.comp]
      by_cases hid : b.id = e.block_id
      · have hcond : (entryApplies e && e.block_id == b.id) = true := by
          simp only [Bool.and_eq_true, beq_iff_eq]
          exact ⟨he, hid.symm⟩
        have hlast : lastOrderFor (es ++ [e]) b.id = some e.order := by
          rw [lastOrderFor_append, if_pos hcond]
        rw [hlast]
        simp [hid]
      · have hcond : ¬ ((entryApplies e && e.block_id == b.id) = true) := by
          simp only [Bool.and_eq_true, beq_iff_eq]
          intro hcontra
          exact hid hcontra.2.symm
        have hlast : lastOrderFor (es ++ [e]) b.id = lastOrderFor es b.id := by
          rw [lastOrderFor_append, if_neg hcond]
        rw [hlast]
        simp [hid]
    · rw [if_neg he]
      apply List.map_congr_left
      intro d _
      congr 1
      apply List.map_congr_left
      intro b _
      have hcond : ¬ ((entryApplies e && e.block_id == b.id) = true) := by
        simp only [Bool.and_eq_true]
        intro hcontra
        exact he hcontra.1
      have hlast : lastOrderFor (es ++ [e]) b.id = lastOrderFor es b.id := by
        rw [lastOrderFor_append, if_neg hcond]
      rw [hlast]

/-- C8 (amended).  `reorder_blocks` fails with a not-found error when the
document does not exist; otherwise every block of the database ends with
`block_order` equal to the order of the last entry naming it whose
`block_id` and `order` are both nonzero (Python truthiness), and keeps its
previous order when no such entry names it.  (The original claim — that
every supplied entry's value is applied verbatim — is refuted by
`c8_reorder_applies_verbatim_counterexample`: a zero order value is skipped
by the `if block_id and new_order` guard, and with duplicate entries only
the last one survives.) -/
theorem c8_reorder_applies_verbatim (db : DB) (document_id : Nat)
    (entries : List OrderEntry) (hnd : (dbBlockIds db).Nodup) :
    (db.docs.any (fun d => d.id == document_id) = false →
      ∃ msg, reorder_blocks db document_id entries = Except.error msg) ∧
    (db.docs.any (fun d => d.id == document_id) = true →
      reorder_blocks db document_id entries =
        Except.ok { docs := db.docs.map (fun d => { d with blocks := d.blocks.map (fun b =>
          { b with order := (lastOrderFor entries b.id).getD b.order }) }) }) := by
  constructor
  · intro h
    refine ⟨"Document with ID " ++ toString document_id ++ " not found", ?_⟩
    simp only [reorder_blocks, h]
    rfl
  · intro h
    have hnd2 : ((db.docs.map (fun d => d.blocks.map (·.id))).flatten).Nodup := hnd
    simp only [reorder_blocks, h, if_true]
    rw [reorder_fold_eq hnd2 entries]

/-- Witness for C8 on a one-block database with one applied entry. -/
theorem c8_reorder_applies_verbatim_witness :
    (dbBlockIds (DB.mk [⟨1, [{ id := 1, btype := BlockType.title, order := 5 }]⟩])).Nodup ∧
    ((DB.mk [⟨1, [{ id := 1, btype := BlockType.title, order := 5 }]⟩]).docs.any
      (fun d => d.id == 1) = true) ∧
    Except.isOk (reorder_blocks
      (DB.mk [⟨1, [{ id := 1, btype := BlockType.title, order := 5 }]⟩]) 1
      [⟨1, 2⟩]) = true := by
  refine ⟨by decide, by decide, ?_⟩
  rw [(c8_reorder_applies_verbatim
    (DB.mk [⟨1, [{ id := 1, btype := BlockType.title, order := 5 }]⟩]) 1
    [⟨1, 2⟩] (by decide)).2 (by decide)]
  rfl

/-- Counterexample for C8 as stated: an entry with order 0 names an
existing block but is skipped (the block keeps order 5, not 0); with two
entries naming the same block only the last order value survives, so the
first entry is not applied verbatim. -/
theorem c8_reorder_applies_verbatim_counterexample :
    reorder_blocks (DB.mk [⟨1, [{ id := 1, btype := BlockType.title, order := 5 }]⟩]) 1
        [⟨1, 0⟩] =
      Except.ok (DB.mk [⟨1, [{ id := 1, btype := BlockType.title, order := 5 }]⟩]) ∧
    ((5 : Int) ≠ 0) ∧
    reorder_blocks (DB.mk [⟨1, [{ id := 1, btype := BlockType.title, order := 5 }]⟩]) 1
        [⟨1, 2⟩, ⟨1, 7⟩] =
      Except.ok (DB.mk [⟨1, [{ id := 1, btype := BlockType.title, order := 7 }]⟩]) ∧
    ((7 : Int) ≠ 2) := by
  refine ⟨by decide, by decide, by decide, by decide⟩

/-! ### Document assembly (`document_assembly.py`) and the tool-layer
assemble (`sop_tools.py`).

The renderers below keep the structure of the source — per-format
functions over the blocks sorted by order, each dispatching on the block
type with a generic fallback — with the surrounding boilerplate (CSS,
dates, JSON indentation) abridged, since every claim about assembly
concerns only the format dispatch and its error. -/

/-- The `AssemblyFormat` enum (all five members). -/
inductive AssemblyFormat where
  | html | markdown | pdf | plain_text | json
deriving DecidableEq, Repr

/-- Model of `DocumentAssemblyConfig` (the fields the assembler reads). -/
structure DocumentAssemblyConfig where
  format_type : AssemblyFormat
  include_toc : Bool := true
  include_metadata : Bool := true
deriving DecidableEq, Repr

/-- Model of `AssembledDocument` (content, format, block count). -/
structure AssembledDocument where
  content : String
  format_type : AssemblyFormat
  block_count : Nat
deriving DecidableEq, Repr

/-- Model of `_render_block_markdown`, abridged. -/
def renderBlockMarkdown (b : Block) : String :=
  match b.btype with
  | .title => "# " ++ b.content.text.getD "" ++ "\n\n"
  | .description => b.content.text.getD "" ++ "\n\n"
  | .section_header => "## " ++ b.content.text.getD "" ++ "\n\n"
  | .step =>
    "### Step " ++ (match b.content.stepNumber with | some n => toString n | none => "") ++
      ": " ++ b.content.stepDescription.getD "" ++ "\n\n"
  | .question => "#### Question: " ++ b.content.question.getD "" ++ "\n\n"
  | .warning => "WARNING: " ++ b.content.text.getD "" ++ "\n\n"
  | .caution => "CAUTION: " ++ b.content.text.getD "" ++ "\n\n"
  | .ppe_required => "PPE Required: " ++ b.content.text.getD "" ++ "\n\n"
  | .additional_info => "### Additional Information\n\n" ++ b.content.text.getD "" ++ "\n\n"
  | _ => b.content.text.getD "" ++ "\n\n"

/-- Model of `_render_block_html`, abridged. -/
def renderBlockHtml (b : Block) : String :=
  match b.btype with
  | .title => "<h1>" ++ b.content.text.getD "" ++ "</h1>"
  | .description => "<p>" ++ b.content.text.getD "" ++ "</p>"
  | .section_header => "<h2>" ++ b.content.text.getD "" ++ "</h2>"
  | .step =>
    "<h3>Step " ++ (match b.content.stepNumber with | some n => toString n | none => "") ++
      ": " ++ b.content.stepDescription.getD "" ++ "</h3>"
  | .question => "<h4>Question: " ++ b.content.question.getD "" ++ "</h4>"
  | .warning => "<div>WARNING: " ++ b.content.text.getD "" ++ "</div>"
  | .caution => "<div>CAUTION: " ++ b.content.text.getD "" ++ "</div>"
  | .ppe_required => "<div>PPE Required: " ++ b.content.text.getD "" ++ "</div>"
  | .additional_info => "<div>Additional Information: " ++ b.content.text.getD "" ++ "</div>"
  | _ => "<p>" ++ b.content.text.getD "" ++ "</p>"

/-- Model of `_render_block_plain_text`, abridged. -/
def renderBlockPlainText (b : Block) : String :=
  match b.btype with
  | .step =>
    "Step " ++ (match b.content.stepNumber with | some n => toString n | none => "") ++
      ": " ++ b.content.stepDescription.getD "" ++ "\n"
  | .question => "Question: " ++ b.content.question.getD "" ++ "\n"
  | .warning => "WARNING: " ++ b.content.text.getD "" ++ "\n"
  | .caution => "CAUTION: " ++ b.content.text.getD "" ++ "\n"
  | .ppe_required => "PPE Required: " ++ b.content.text.getD "" ++ "\n"
  | _ => b.content.text.getD "" ++ "\n"

/-- Model of `_assemble_markdown`, abridged: header then the blocks in order. -/
def assembleMarkdown (doc : Document) (blocks : List Block) : String :=
  "# " ++ doc.document_name ++ "\n" ++ String.join (blocks.map renderBlockMarkdown)

/-- Model of `_assemble_html`, abridged. -/
def assembleHtml (doc : Document) (blocks : List Block) : String :=
  "<html><body><h1>" ++ doc.document_name ++ "</h1>" ++
    String.join (blocks.map renderBlockHtml) ++ "</body></html>"

/-- Model of `_assemble_plain_text`, abridged. -/
def assemblePlainText (doc : Document) (blocks : List Block) : String :=
  doc.document_name ++ "\n" ++ String.join (blocks.map renderBlockPlainText)

/-- Model of `_assemble_json`, abridged. -/
def assembleJson (doc : Document) (blocks : List Block) : String :=
  "\x7b name: " ++ doc.document_name ++ ", blocks: " ++
    String.join (blocks.map (fun b => b.content.text.getD "")) ++ " \x7d"

/-- Model of `DocumentAssembler.assemble_document`: sort the blocks by order, then
dispatch on the format; the if/elif chain covers html, markdown,
plain_text and json, and anything else — only `pdf` remains in the enum —
raises the unsupported-format error.  The function only reads the
document: no mutation happens on any path. -/
def assemble_document (doc : Document) (config : DocumentAssemblyConfig) :
    Except String AssembledDocument :=
  let sorted := sortByOrder doc.blocks
  match config.format_type with
  | .html =>
    Except.ok { content := assembleHtml doc sorted, format_type := config.format_type,
                block_count := sorted.length }
  | .markdown =>
    Except.ok { content := assembleMarkdown doc sorted, format_type := config.format_type,
                block_count := sorted.length }
  | .plain_text =>
    Except.ok { content := assemblePlainText doc sorted, format_type := config.format_type,
                block_count := sorted.length }
  | .json =>
    Except.ok { content := assembleJson doc sorted, format_type := config.format_type,
                block_count := sorted.length }
  | .pdf => Except.error "Unsupported format: pdf"

/-- The string values of the `AssemblyFormat` enum. -/
def assemblyFormatValues : List String := ["html", "markdown", "pdf", "plain_text", "json"]

/-- Model of `AssemblyFormat(s)` for a value string. -/
def assemblyFormatOfString (sv : String) : Option AssemblyFormat :=
  if sv = "html" then some AssemblyFormat.html
  else if sv = "markdown" then some AssemblyFormat.markdown
  else if sv = "pdf" then some AssemblyFormat.pdf
  else if sv = "plain_text" then some AssemblyFormat.plain_text
  else if sv = "json" then some AssemblyFormat.json
  else none

/-- The tool-layer format coercion in `sop_tools.assemble_document`:
`AssemblyFormat(i.format_type) if i.format_type in values else HTML` — an
unrecognized string silently becomes html. -/
def toolAssembleFormat (sv : String) : AssemblyFormat :=
  match assemblyFormatOfString sv with
  | some f => f
  | none => AssemblyFormat.html

/-- Model of `sop_tools.assemble_document`: coerce the format string, then run the
assembler. -/
def tool_assemble_document (doc : Document) (format_type : String)
    (include_toc include_metadata : Bool) : Except String String :=
  let config : DocumentAssemblyConfig :=
    { format_type := toolAssembleFormat format_type,
      include_toc := include_toc, include_metadata := include_metadata }
  match assemble_document doc config with
  | Except.ok out => Except.ok out.content
  | Except.error e => Except.error e

/-- C6 (amended).  At the assembler, a format outside the four renderable
ones — only `pdf` in the enum — fails with the unsupported-format error and
nothing is mutated (assembly only reads the document), while each of the
four renderable formats succeeds; at the tool layer, an unrecognized format
string is coerced to html instead of failing, and the string "pdf" passes
through and hits the assembler's error.  (The original claim that arbitrary
unrecognized format strings supplied to the tool-layer assemble fail is
refuted by `c6_unsupported_format_counterexample`.) -/
theorem c6_unsupported_format (doc : Document) (config : DocumentAssemblyConfig) :
    (config.format_type ∉ [AssemblyFormat.html, AssemblyFormat.markdown,
        AssemblyFormat.plain_text, AssemblyFormat.json] →
      assemble_document doc config = Except.error "Unsupported format: pdf") ∧
    (∀ f ∈ [AssemblyFormat.html, AssemblyFormat.markdown,
        AssemblyFormat.plain_text, AssemblyFormat.json],
      ∃ out : AssembledDocument,
        assemble_document doc { config with format_type := f } = Except.ok out) ∧
    (∀ sv : String, sv ∉ assemblyFormatValues → toolAssembleFormat sv = AssemblyFormat.html) ∧
    tool_assemble_document doc "pdf" config.include_toc config.include_metadata =
      Except.error "Unsupported format: pdf" := by
  refine ⟨?_, ?_, ?_, ?_⟩
  · intro h
    cases hf : config.format_type <;> simp [hf] at h ⊢ <;> simp [assemble_document, hf]
  · intro f hf
    simp only [List.mem_cons, List.not_mem_nil, or_false] at hf
    rcases hf with rfl | rfl | rfl | rfl
    · exact ⟨_, rfl⟩
    · exact ⟨_, rfl⟩
    · exact ⟨_, rfl⟩
    · exact ⟨_, rfl⟩
  · intro sv hsv
    simp only [assemblyFormatValues, List.mem_cons, List.not_mem_nil, or_false,
      not_or] at hsv
    obtain ⟨h1, h2, h3, h4, h5⟩ := hsv
    simp [toolAssembleFormat, assemblyFormatOfString, h1, h2, h3, h4, h5]
  · have htool : toolAssembleFormat "pdf" = AssemblyFormat.pdf := by decide
    have hasm : assemble_document doc
        { format_type := AssemblyFormat.pdf, include_toc := config.include_toc,
          include_metadata := config.include_metadata } =
        Except.error "Unsupported format: pdf" := rfl
    simp [tool_assemble_document, htool, hasm]

/-- Witness for C6: the pdf format is rejected at the assembler, and the
string "markdown" is not coerced away at the tool layer. -/
theorem c6_unsupported_format_witness :
    (AssemblyFormat.pdf ∉ [AssemblyFormat.html, AssemblyFormat.markdown,
        AssemblyFormat.plain_text, AssemblyFormat.json]) ∧
    assemble_document { document_type := DocumentType.sop, blocks := [] }
        { format_type := AssemblyFormat.pdf } =
      Except.error "Unsupported format: pdf" :=
  ⟨by decide,
   (c6_unsupported_format { document_type := DocumentType.sop, blocks := [] }
      { format_type := AssemblyFormat.pdf }).1 (by decide)⟩

/-- Counterexample for C6 as stated: the tool-layer assemble with the
unrecognized format string "docx" succeeds (it is silently rendered as
html) instead of failing with an unsupported-format error. -/
theorem c6_unsupported_format_counterexample :
    ("docx" ∉ assemblyFormatValues) ∧
    Except.isOk (tool_assemble_document
      { document_type := DocumentType.sop, blocks := [] } "docx" true true) = true := by
  refine ⟨by decide, by decide⟩

/-! ### The upsert tools (`sop_tools.py`) and the writer (`sop_graph.py`) -/

/-- Replace the content of the first row with the given id. -/
def setContentFirst : List Block → Nat → Content → List Block
  | [], _, _ => []
  | b :: bs, i, c =>
    if b.id = i then { b with content := c } :: bs else b :: setContentFirst bs i c

/-- The `block_type == TITLE order_by(block_order.asc()).first()` query:
the title row with the smallest order (ties in rowid order). -/
def firstTitleBlock (blocks : List Block) : Option Block :=
  (sortByOrder (blocks.filter (fun b => b.btype == BlockType.title))).head?

/-- Model of `sop_tools.add_or_update_title`: update the existing title's content in
place, or create a new title row with `block_order = 1` — appended without
shifting any sibling ("shift others down" is only a comment in the
source). -/
def add_or_update_title (s : DocState) (text : String) : DocState :=
  match firstTitleBlock s.blocks with
  | some existing =>
    { s with blocks := setContentFirst s.blocks existing.id { text := some text } }
  | none =>
    let nb : Block :=
      { id := s.nextId, btype := BlockType.title, order := 1, content := { text := some text } }
    { blocks := s.blocks ++ [nb], nextId := s.nextId + 1 }

/-- The first description row by order. -/
def firstDescriptionBlock (blocks : List Block) : Option Block :=
  (sortByOrder (blocks.filter (fun b => b.btype == BlockType.description))).head?

/-- Model of `sop_tools.add_or_update_description`: update in place, or append at
`max order + 1` (1 for an empty document). -/
def add_or_update_description (s : DocState) (text : String) : DocState :=
  match firstDescriptionBlock s.blocks with
  | some existing =>
    { s with blocks := setContentFirst s.blocks existing.id { text := some text } }
  | none =>
    let ord : Int :=
      match maxOrder s.blocks with
      | none => 1
      | some m => m + 1
    let nb : Block :=
      { id := s.nextId, btype := BlockType.description, order := ord,
        content := { text := some text } }
    { blocks := s.blocks ++ [nb], nextId := s.nextId + 1 }

/-- The content dict written by `add_or_update_step`. -/
def mkStepContent (n : Int) (desc instr res resp : String) (ppe : Bool) : Content :=
  { stepNumber := some n, stepDescription := some desc, stepInstructions := some instr,
    stepExpectedResult := some res, stepWhoResponsible := some resp, ppeRequired := some ppe }

/-- The linear scan of the document's STEP rows for one whose content's
`step_number` equals the requested number. -/
def findStepByNumber (blocks : List Block) (n : Int) : Option Block :=
  (blocks.filter (fun b => b.btype == BlockType.step)).find?
    (fun b => b.content.stepNumber == some n)

/-- Model of `sop_tools.add_or_update_step`: replace the matching step's content, or
append a new STEP row at `max order + 1` (1 for an empty document). -/
def add_or_update_step (s : DocState) (n : Int) (desc instr res resp : String)
    (ppe : Bool) : DocState :=
  let content := mkStepContent n desc instr res resp ppe
  match findStepByNumber s.blocks n with
  | some target => { s with blocks := setContentFirst s.blocks target.id content }
  | none =>
    let ord : Int :=
      match maxOrder s.blocks with
      | none => 1
      | some m => m + 1
    let nb : Block :=
      { id := s.nextId, btype := BlockType.step, order := ord, content := content }
    { blocks := s.blocks ++ [nb], nextId := s.nextId + 1 }

/-- The writer's steps loop: `for idx, s in enumerate(steps, 1):
add_or_update_step(..., step_number=idx, step_description=s, ...)`. -/
def upsertSteps : DocState → Nat → List String → DocState
  | s, _, [] => s
  | s, n, d :: ds => upsertSteps (add_or_update_step s (n : Int) d "" "" "" false) (n + 1) ds

/-- Model of `writer_node`'s dispatch on the classified intent of the latest user
message (the document-mutating part; acknowledgment text omitted). -/
def writer_on_message (s : DocState) (text : String) : DocState :=
  match classify_intent text with
  | "title" => add_or_update_title s ((extract_title text).getD text)
  | "description" => add_or_update_description s text
  | "steps" => upsertSteps s 1 (parse_steps text)
  | _ => s

/-- The step blocks the writer is expected to produce from segments
`ds` numbered from `n`: one per segment, in order. -/
def expectedSteps : Nat → List String → List (Option Int × Option String)
  | _, [] => []
  | n, d :: ds => (some (n : Int), some d) :: expectedSteps (n + 1) ds

theorem expectedSteps_length : ∀ (n : Nat) (ds : List String),
    (expectedSteps n ds).length = ds.length := by
  intro n ds
  induction ds generalizing n with
  | nil => rfl
  | cons d ds ih => simp [expectedSteps, ih]

theorem upsertSteps_fresh (ds : List String) : ∀ (s : DocState) (n : Nat),
    (∀ b ∈ s.blocks, b.btype = BlockType.step →
      ∀ m : Int, b.content.stepNumber = some m → m < (n : Int)) →
    ((upsertSteps s n ds).blocks.filter (fun b => b.btype == BlockType.step)).map
        (fun b => (b.content.stepNumber, b.content.stepDescription)) =
      ((s.blocks.filter (fun b => b.btype == BlockType.step)).map
        (fun b => (b.content.stepNumber, b.content.stepDescription))) ++ expectedSteps n ds := by
  induction ds with
  | nil =>
    intro s n _
    simp [upsertSteps, expectedSteps]
  | cons d ds ih =>
    intro s n h
    have hfind : findStepByNumber s.blocks (n : Int) = none := by
      unfold findStepByNumber
      rw [List.find?_eq_none]
      intro b hb hcontra
      have hb2 := List.mem_filter.1 hb
      have hstep : b.btype = BlockType.step := by simpa using hb2.2
      have hnum : b.content.stepNumber = some (n : Int) := by simpa using hcontra
      have := h b hb2.1 hstep (n : Int) hnum
      omega
    rw [upsertSteps]
    set c : Content := mkStepContent (n : Int) d "" "" "" false with hc
    set nord : Int := (match maxOrder s.blocks with | none => 1 | some m => m + 1) with hnord
    set nb : Block := { id := s.nextId, btype := BlockType.step, order := nord, content := c }
      with hnb
    set s2 : DocState := { blocks := s.blocks ++ [nb], nextId := s.nextId + 1 } with hs2
    have hstepeq : add_or_update_step s (n : Int) d "" "" "" false = s2 := by
      unfold add_or_update_step
      rw [hfind]
    have h2 : ∀ b ∈ s2.blocks, b.btype = BlockType.step →
        ∀ m : Int, b.content.stepNumber = some m → m < ((n + 1 : Nat) : Int) := by
      intro b hb hbt m hm
      rw [hs2] at hb
      rcases List.mem_append.1 hb with hb1 | hb2
      · have := h b hb1 hbt m hm
        push_cast
        omega
      · have hbeq := List.mem_singleton.1 hb2
        subst hbeq
        rw [hnb] at hm
        have hm2 : c.stepNumber = some m := hm
        rw [hc] at hm2
        have : some (n : Int) = some m := hm2
        have hmn : m = (n : Int) := (Option.some.injEq _ _ ▸ this).symm
        push_cast
        omega
    rw [hstepeq, ih s2 (n + 1) h2, hs2]
    simp only [List.filter_append, List.map_append, List.filter_cons, List.filter_nil]
    rw [List.append_assoc]
    congr 1

/-- C7.  For a user message of steps intent directed at a document with no
STEP blocks yet, the writer splits the text on sentence terminators into
non-empty trimmed segments and creates exactly one STEP block per segment,
numbered 1, 2, ... in input order with the segment as description; the
scenario sentence yields exactly the three expected segments. -/
theorem c7_writer_step_splitting (s : DocState) (text : String)
    (hintent : classify_intent text = "steps")
    (hnostep : ∀ b ∈ s.blocks, b.btype ≠ BlockType.step) :
    ((writer_on_message s text).blocks.filter (fun b => b.btype == BlockType.step)).map
        (fun b => (b.content.stepNumber, b.content.stepDescription)) =
      expectedSteps 1 (parse_steps text) ∧
    ((writer_on_message s text).blocks.filter (fun b => b.btype == BlockType.step)).length =
      (parse_steps text).length ∧
    parse_steps "First put on gloves. Then seal the area. Finally notify the supervisor." =
      ["First put on gloves", "Then seal the area", "Finally notify the supervisor"] := by
  have hw : writer_on_message s text = upsertSteps s 1 (parse_steps text) := by
    unfold writer_on_message
    rw [hintent]
    rfl
  have hfresh : ∀ b ∈ s.blocks, b.btype = BlockType.step →
      ∀ m : Int, b.content.stepNumber = some m → m < ((1 : Nat) : Int) := by
    intro b hb hbt
    exact absurd hbt (hnostep b hb)
  have hfil : s.blocks.filter (fun b => b.btype == BlockType.step) = [] := by
    rw [List.filter_eq_nil_iff]
    intro b hb
    simpa using hnostep b hb
  have hmain := upsertSteps_fresh (parse_steps text) s 1 hfresh
  rw [hfil] at hmain
  simp only [List.map_nil, List.nil_append] at hmain
  refine ⟨?_, ?_, by decide⟩
  · rw [hw, hmain]
  · rw [hw]
    have hlen := congrArg List.length hmain
    simp only [List.length_map] at hlen
    rw [hlen, expectedSteps_length]

/-- Witness for C7: the writer on an empty document with the scenario
sentence produces the three numbered step blocks. -/
theorem c7_writer_step_splitting_witness :
    classify_intent
        "First put on gloves. Then seal the area. Finally notify the supervisor." =
      "steps" ∧
    ((writer_on_message { blocks := [], nextId := 1 }
        "First put on gloves. Then seal the area. Finally notify the supervisor.").blocks.filter
          (fun b => b.btype == BlockType.step)).map
        (fun b => (b.content.stepNumber, b.content.stepDescription)) =
      expectedSteps 1 (parse_steps
        "First put on gloves. Then seal the area. Finally notify the supervisor.") :=
  ⟨by decide,
   (c7_writer_step_splitting { blocks := [], nextId := 1 }
     "First put on gloves. Then seal the area. Finally notify the supervisor."
     (by decide) (by decide)).1⟩

/-- C9.  When a document has no TITLE block, the title-upsert tool appends
a new TITLE row with `block_order = 1` and leaves every other row — and in
particular its order — exactly as it was; consequently a document that
already has a block at order 1 ends with two distinct blocks sharing
order 1. -/
theorem c9_title_upsert_no_shift (s : DocState) (text : String)
    (h : ∀ b ∈ s.blocks, b.btype ≠ BlockType.title) :
    (add_or_update_title s text).blocks =
      s.blocks ++ [{ id := s.nextId, btype := BlockType.title, order := 1, content := { text := some text } }] ∧
    (∃ b1 b2 : Block,
      b1 ∈ (add_or_update_title
        { blocks := [{ id := 1, btype := BlockType.description, order := 1 }],
          nextId := 2 } "T").blocks ∧
      b2 ∈ (add_or_update_title
        { blocks := [{ id := 1, btype := BlockType.description, order := 1 }],
          nextId := 2 } "T").blocks ∧
      b1.id ≠ b2.id ∧ b1.order = 1 ∧ b2.order = 1) := by
  constructor
  · have hfil : s.blocks.filter (fun b => b.btype == BlockType.title) = [] := by
      rw [List.filter_eq_nil_iff]
      intro b hb
      simpa using h b hb
    have hft : firstTitleBlock s.blocks = none := by
      unfold firstTitleBlock
      rw [hfil]
      rfl
    unfold add_or_update_title
    rw [hft]
  · refine ⟨{ id := 1, btype := BlockType.description, order := 1 },
      { id := 2, btype := BlockType.title, order := 1, content := { text := some "T" } },
      ?_, ?_, ?_, ?_, ?_⟩ <;> decide

/-- Witness for C9 on a one-block document with no title. -/
theorem c9_title_upsert_no_shift_witness :
    (∀ b ∈ ([{ id := 1, btype := BlockType.description, order := 1 }] : List Block),
      b.btype ≠ BlockType.title) ∧
    (add_or_update_title
        { blocks := [{ id := 1, btype := BlockType.description, order := 1 }], nextId := 2 }
        "Spill Cleanup").blocks =
      [{ id := 1, btype := BlockType.description, order := 1 },
       { id := 2, btype := BlockType.title, order := 1,
         content := { text := some "Spill Cleanup" } }] :=
  ⟨by decide,
   (c9_title_upsert_no_shift
     { blocks := [{ id := 1, btype := BlockType.description, order := 1 }], nextId := 2 }
     "Spill Cleanup" (by decide)).1⟩

end SopGen
